import Mathlib

/-!
Verification of the go-neural feedforward network engine.

The Go sources are shallowly embedded over exact rational arithmetic:
`float64` values become `ℚ`, a `mat64.Dense` matrix becomes a row-major
`List (List ℚ)`, fallible Go functions return `Except String`, and
functions that mutate a layer's matrices in place are modelled by
returning the updated layer list.  Transcendental functions
(`math.Log`, used by the cost strategies) are threaded through as an
uninterpreted parameter `logFn : ℚ → ℚ`, since none of the verified
claims depends on their values.  All activation and gradient functions
in the repository ignore the row/column indices that `mat64.Apply`
passes them, so elementwise application is modelled index-free.
-/

/-- Decidable equality for `Except` values, so concrete runs of the embedded
fallible functions can be checked by `decide`. -/
instance {ε α : Type} [DecidableEq ε] [DecidableEq α] : DecidableEq (Except ε α)
  | .error x, .error y =>
    decidable_of_iff (x = y) ⟨fun h => by rw [h], fun h => by injection h⟩
  | .error _, .ok _ => isFalse (fun h => Except.noConfusion h)
  | .ok _, .error _ => isFalse (fun h => Except.noConfusion h)
  | .ok x, .ok y =>
    decidable_of_iff (x = y) ⟨fun h => by rw [h], fun h => by injection h⟩

namespace GoNeural

/-- A dense matrix, stored as its list of rows (each row a list of entries). -/
abbrev Mx : Type := List (List ℚ)

/-- Number of rows of a matrix (first component of `mat64.Dense.Dims`). -/
def numRows (m : Mx) : ℕ := m.length

/-- Number of columns of a matrix (second component of `mat64.Dense.Dims`). -/
def numCols (m : Mx) : ℕ := (m.headD []).length

/-- The matrix has `r` rows, each of length `c`. -/
def HasDims (m : Mx) (r c : ℕ) : Prop := m.length = r ∧ ∀ row ∈ m, row.length = c

instance (m : Mx) (r c : ℕ) : Decidable (HasDims m r c) := by
  unfold HasDims; infer_instance

/-- The matrix is rectangular: every row has the common column count.  Every
`mat64.Dense` satisfies this by construction. -/
def Wf (m : Mx) : Prop := ∀ row ∈ m, row.length = numCols m

instance (m : Mx) : Decidable (Wf m) := by
  unfold Wf; infer_instance

/-- Column `j` of a matrix (`mat64.Dense.ColView`). -/
def getCol (m : Mx) (j : ℕ) : List ℚ := m.map (fun row => row.getD j 0)

/-- Transpose of a matrix (`mat64.Matrix.T`). -/
def transposeMx (m : Mx) : Mx := (List.range (numCols m)).map (fun j => getCol m j)

/-- Dot product of two equally long vectors. -/
def dotProd (xs ys : List ℚ) : ℚ := (List.zipWith (· * ·) xs ys).sum

/-- Matrix product (`mat64.Dense.Mul`): entry `(i,j)` is the dot product of
row `i` of `a` with column `j` of `b`. -/
def matMul (a b : Mx) : Mx :=
  a.map (fun row => (transposeMx b).map (fun col => dotProd row col))

/-- Elementwise application of a function (`mat64.Dense.Apply`; every function
the repository passes to `Apply` ignores the index arguments). -/
def applyMx (f : ℚ → ℚ) (m : Mx) : Mx := m.map (fun row => row.map f)

/-- Elementwise sum (`mat64.Dense.Add`). -/
def matAdd (a b : Mx) : Mx := List.zipWith (fun r s => List.zipWith (· + ·) r s) a b

/-- Elementwise difference (`mat64.Dense.Sub`). -/
def matSub (a b : Mx) : Mx := List.zipWith (fun r s => List.zipWith (· - ·) r s) a b

/-- Elementwise (Hadamard) product (`mat64.Dense.MulElem`). -/
def mulElemMx (a b : Mx) : Mx := List.zipWith (fun r s => List.zipWith (· * ·) r s) a b

/-- Multiplication of every entry by a scalar (`mat64.Dense.Scale`). -/
def scaleMx (f : ℚ) (m : Mx) : Mx := m.map (fun row => row.map (fun x => f * x))

/-- Sum of all entries (`mat64.Sum`). -/
def sumMx (m : Mx) : ℚ := (m.map List.sum).sum

/-- The zero matrix of the given shape (`mat64.NewDense(r, c, nil)`). -/
def zeroMx (r c : ℕ) : Mx := List.replicate r (List.replicate c 0)

/-- Prepends a column of `1.0` to a matrix (`matrix.AddBias`, which augments
a ones column in front of the input). -/
def addBias (m : Mx) : Mx := m.map (fun row => 1 :: row)

/-- Drops the first row of a matrix (the `View(1, 0, r-1, c)` submatrix taken
in `doBackProp` to discard the bias row of the propagated error). -/
def dropRow0 (m : Mx) : Mx := m.tail

/-- Drops the first column of a matrix (the `View(0, 1, r, c-1)` submatrix
taken when regularization excludes the bias column). -/
def dropCol0 (m : Mx) : Mx := m.map List.tail

/-- Copies a matrix and zeroes its first column (`regWeights.Clone` followed
by `regWeights.SetCol(0, zeros)` in the gradient regularization step). -/
def setCol0Zero (m : Mx) : Mx := m.map (fun row => 0 :: row.tail)

/-- Row-normalization applied after a softmax activation: each row is scaled
by the reciprocal of its sum (`rowVec.ScaleVec(1/rowSums[i], rowVec)`). -/
def softmaxNorm (m : Mx) : Mx :=
  m.map (fun row => row.map (fun x => (1 / row.sum) * x))

/-- Unrolls a matrix into a slice row by row (`matrix.mx2VecByRow`:
`vec[i*cols+j] = m[i][j]`). -/
def mx2VecByRow (m : Mx) : List ℚ := m.flatten

/-- Unrolls a matrix into a slice column by column (`matrix.mx2VecByCol`:
`vec[i*rows+j] = m[j][i]`). -/
def mx2VecByCol (m : Mx) : List ℚ := (transposeMx m).flatten

/-- Embeds `matrix.Mx2Vec`: unrolls a matrix into a slice, by row when
`byRow` is true and by column otherwise. -/
def mx2Vec (m : Mx) (byRow : Bool) : List ℚ :=
  if byRow then mx2VecByRow m else mx2VecByCol m

/-- The matrix of shape `r × c` whose entry `(i,j)` is `vec[i*c+j]`
(`matrix.setMx2VecByRow`, which overwrites every row of the target). -/
def fillByRow (r c : ℕ) (vec : List ℚ) : Mx :=
  (List.range r).map (fun i => (List.range c).map (fun j => vec.getD (i * c + j) 0))

/-- The matrix of shape `r × c` whose entry `(i,j)` is `vec[j*r+i]`
(`matrix.setMx2VecByCol`, which overwrites every column of the target). -/
def fillByCol (r c : ℕ) (vec : List ℚ) : Mx :=
  (List.range r).map (fun i => (List.range c).map (fun j => vec.getD (j * r + i) 0))

/-- Embeds `matrix.SetMx2Vec`: overwrites all elements of `mx` with values
taken from `vec` (by row or by column), failing when the slice holds fewer
elements than the matrix.  The Go function mutates `mx` in place; the
embedding returns the overwritten matrix. -/
def setMx2Vec (mx : Mx) (vec : List ℚ) (byRow : Bool) : Except String Mx :=
  if numRows mx * numCols mx > vec.length then
    .error "Elements count mismatch"
  else
    .ok (if byRow then fillByRow (numRows mx) (numCols mx) vec
         else fillByCol (numRows mx) (numCols mx) vec)

/-- Embeds `matrix.MakeLabelsMx`: builds the 1-of-N labels matrix with a `1.0`
at (0-based) column `label - 1` of each row.  A label outside `1..labCount`
makes `mx.Set` panic in Go, modelled as an error. -/
def makeLabelsMx (labels : List ℤ) (labCount : ℕ) : Except String Mx :=
  if labels.all (fun v => 1 ≤ v ∧ v ≤ (labCount : ℤ)) then
    .ok (labels.map (fun v =>
      (List.range labCount).map (fun j => if (j : ℤ) = v - 1 then (1 : ℚ) else 0)))
  else .error "panic: index out of range"

/-- The three layer kinds of the `neural` package. -/
inductive LayerKind where
  | INPUT
  | HIDDEN
  | OUTPUT
deriving DecidableEq, Repr

/-- Embeds `neural.Layer`: weight and deltas (gradient accumulator) matrices
plus the layer's activation pair.  An INPUT layer carries nil weights, deltas
and activations in Go; its `weights`/`deltas` fields are unused here. -/
structure Layer where
  kind : LayerKind
  weights : Mx
  deltas : Mx
  act : ℚ → ℚ
  actGrad : ℚ → ℚ
  meta : String

/-- Embeds `Layer.SetWeights`: fails on an INPUT layer, on nil weights or on a
shape mismatch; otherwise replaces the weight matrix and re-allocates the
deltas matrix to zeros of the same shape. -/
def SetWeights (l : Layer) (w : Option Mx) : Except String Layer :=
  if l.kind = LayerKind.INPUT then
    .error "Cant set weights matrix of INPUT layer"
  else
    match w with
    | none => .error "Network weights cant be nil"
    | some wm =>
      if numRows wm = numRows l.weights ∧ numCols wm = numCols l.weights then
        .ok { l with weights := wm, deltas := zeroMx (numRows wm) (numCols wm) }
      else
        .error "Dimension mismatch"

/-- Embeds `Layer.FwdOut` (and the identical `Layer.Out` variant): an INPUT
layer is the identity; any other layer checks that the bias-augmented input
width matches the weight width, computes `activation(addBias(X) × Wᵀ)` and,
for a softmax layer, additionally normalizes each row by its sum. -/
def FwdOut (l : Layer) (inputMx : Option Mx) : Except String Mx :=
  match inputMx with
  | none => .error "Cant calculate output for nil input"
  | some inMx =>
    if l.kind = LayerKind.INPUT then .ok inMx
    else if numCols inMx + 1 ≠ numCols l.weights then
      .error "Dimension mismatch"
    else
      let out := applyMx l.act (matMul (addBias inMx) (transposeMx l.weights))
      if l.meta = "softmax" then .ok (softmaxNorm out) else .ok out

/-- Embeds `CrossEntropy.CostFunc` together with its in-place mutations.
The Go method computes `-(Σ (Y ⊙ log Ŷ + (1-Y) ⊙ log (1-Ŷ))) / samples`,
overwriting the labels matrix with `1 - Y` and the predictions matrix with
`log (1 - Ŷ)` while doing so.  The result triple is (cost, final labels
matrix, final predictions matrix); `logFn` stands for `math.Log`. -/
def crossEntropyCostFunc (logFn : ℚ → ℚ) (inMx outMx labelsMx : Mx) :
    ℚ × Mx × Mx :=
  let costMxA := mulElemMx labelsMx (applyMx logFn outMx)
  let lMx := applyMx (fun x => 1 - x) labelsMx
  let oMx := applyMx logFn (applyMx (fun x => 1 - x) outMx)
  let costMxB := matAdd costMxA (mulElemMx lMx oMx)
  (-(sumMx costMxB / (numRows inMx : ℚ)), lMx, oMx)

/-- Embeds `Network.doForwardProp`, the recursion that feeds each layer's
output into the next layer from index `f` up to index `t`.  The Go function
recurses on `f+1`; the embedding realizes that recursion structurally on the
auxiliary counter `fuel` (the wrapper `doForwardProp` instantiates it so large
that it never runs out: when it would, the layer lookup is already out of
range, which is the same panic the Go recursion reaches).
`doForwardProp_eq` proves that the wrapper satisfies the Go recurrence. -/
def doForwardPropF (layers : List Layer) : ℕ → Mx → ℕ → ℕ → Except String Mx
  | 0, _, _, _ => .error "panic: index out of range"
  | fuel + 1, inMx, f, t =>
    match layers[f]? with
    | none => .error "panic: index out of range"
    | some layer =>
      if f = t then FwdOut layer (some inMx)
      else
        match FwdOut layer (some inMx) with
        | .error e => .error e
        | .ok out => doForwardPropF layers fuel out (f + 1) t

/-- Wrapper fixing the recursion counter of `doForwardPropF`; see there. -/
def doForwardProp (layers : List Layer) (inMx : Mx) (f t : ℕ) : Except String Mx :=
  doForwardPropF layers (layers.length + t + 1 - f) inMx f t

/-- Embeds `Network.ForwardProp`: fails on nil input or an out-of-range
target layer index, otherwise forward-propagates from layer 0 to `toLayer`. -/
def ForwardProp (layers : List Layer) (inMx : Option Mx) (toLayer : ℤ) :
    Except String Mx :=
  match inMx with
  | none => .error "Cant forward propagate nil input"
  | some inMx =>
    if toLayer < 0 ∨ toLayer > (layers.length : ℤ) - 1 then
      .error "Cant propagate beyond network layers"
    else doForwardProp layers inMx 0 toLayer.toNat

/-- Embeds `Network.doBackProp`, the chain-rule recursion descending from
layer `f` to layer `t`: accumulate `errᵀ × addBias(forward output of layer
f-1)` into layer `f`'s deltas, stop at `f = t`, otherwise drop the bias row
from `weightsᵀ × errᵀ`, multiply elementwise with the activation gradient of
layer `f-1` evaluated on that layer's pre-activation sum, and recurse at
`f-1`.  The Go function mutates deltas in place and recurses on `f-1`; the
embedding threads the updated layer list and realizes the recursion
structurally on `fuel`, which the wrapper `doBackProp` pins to `f + 1` (the
fuel-exhausted branch is unreachable from the wrapper: the recursion only
continues when the forward propagation to layer `f-1` succeeded, which forces
`f ≥ 1`).  `doBackProp_eq` proves the wrapper satisfies the Go recurrence. -/
def doBackPropF : ℕ → List Layer → Mx → Mx → ℕ → ℕ → Except String (List Layer)
  | 0, _, _, _, _, _ => .error "panic: out of fuel"
  | fuel + 1, layers, inMx, errMx, f, t =>
    match layers[f]? with
    | none => .error "panic: index out of range"
    | some layer =>
      match ForwardProp layers (some inMx) ((f : ℤ) - 1) with
      | .error e => .error e
      | .ok outMx =>
        let dMx := matMul (transposeMx errMx) (addBias outMx)
        let layers1 := layers.set f { layer with deltas := matAdd layer.deltas dMx }
        if f = t then .ok layers1
        else
          let layerErr :=
            dropRow0 (matMul (transposeMx layer.weights) (transposeMx errMx))
          match ForwardProp layers1 (some inMx) ((f : ℤ) - 2) with
          | .error e => .error e
          | .ok actInMx =>
            match layers1[f - 1]? with
            | none => .error "panic: index out of range"
            | some weightsErrLayer =>
              let gradMx := applyMx weightsErrLayer.actGrad
                (matMul (addBias actInMx) (transposeMx weightsErrLayer.weights))
              doBackPropF fuel layers1 inMx
                (mulElemMx (transposeMx layerErr) gradMx) (f - 1) t

/-- Wrapper fixing the recursion counter of `doBackPropF`; see there. -/
def doBackProp (layers : List Layer) (inMx errMx : Mx) (f t : ℕ) :
    Except String (List Layer) :=
  doBackPropF (f + 1) layers inMx errMx f t

/-- Embeds `Network.BackProp`: fails on nil input, nil error matrix or a
`fromLayer` outside `[1, layerCount-1]`, otherwise runs the backpropagation
recursion from `fromLayer` down to layer 1. -/
def BackProp (layers : List Layer) (inMx errMx : Option Mx) (fromLayer : ℤ) :
    Except String (List Layer) :=
  match inMx with
  | none => .error "Cant backpropagate nil input"
  | some inMx =>
    match errMx with
    | none => .error "Cant backpropagate nil output error"
    | some errMx =>
      if fromLayer < 1 ∨ fromLayer > (layers.length : ℤ) - 1 then
        .error "Cant backpropagate beyond first layer"
      else doBackProp layers inMx errMx fromLayer.toNat 1

/-- Embeds `setNetWeights` (identical in `neural/network.go` and
`train/backprop/backprop.go`): walks the supplied layers in order, filling
each layer's weight matrix column by column (`SetMx2Vec(..., false)`) from
the next `rows*cols` entries of the flat vector, and failing when fewer
entries remain.  The Go function keeps a running offset `acc` into the
slice; the embedding equivalently consumes the front of the list.  Note that
it only overwrites the weight matrices: the deltas matrices are untouched. -/
def setNetWeights : List Layer → List ℚ → Except String (List Layer)
  | [], _ => .ok []
  | layer :: rest, ws =>
    let r := numRows layer.weights
    let c := numCols layer.weights
    if ws.length < r * c then .error "Insufficient number of weights supplied"
    else
      match setMx2Vec layer.weights (ws.take (r * c)) false with
      | .error e => .error e
      | .ok wm =>
        match setNetWeights rest (ws.drop (r * c)) with
        | .error e => .error e
        | .ok rest2 => .ok ({ layer with weights := wm } :: rest2)

/-- Embeds the weight packing done in `Network.Train` (and `backprop.Train`):
the flat parameter vector handed to the optimizer is the concatenation of
`Mx2Vec(weights, false)` over all non-input layers in layer order. -/
def packWeights (layers : List Layer) : List ℚ :=
  ((layers.drop 1).map (fun l => mx2Vec l.weights false)).flatten

/-- Total parameter count of a network: the sum over all non-input layers of
`rows * cols` of the weight matrix, i.e. outputSize * (inputSize + 1). -/
def paramCount (layers : List Layer) : ℕ :=
  ((layers.drop 1).map (fun l => numRows l.weights * numCols l.weights)).sum

/-- Embeds the `trainCost[...].Delta` dispatch: both registered cost
strategies (`xentropy` and `loglike`) implement `Delta` as the elementwise
difference `out - expected`; any other name makes the Go code call a method
on a nil interface, i.e. panic. -/
def costDelta (costName : String) (outMx expMx : Mx) : Except String Mx :=
  if costName = "xentropy" ∨ costName = "loglike" then .ok (matSub outMx expMx)
  else .error "panic: unsupported cost"

/-- Row `i` of a matrix as a 1-row matrix: the Go code takes `RowView(i)`
(a column vector) and transposes it before use; in-range indices are
guaranteed by the callers' loops. -/
def rowOf (m : Mx) (i : ℕ) : Mx := [m.getD i []]

/-- Embeds the per-sample loop of `Network.getGradient`: for each sample
`i`, compute the output-layer delta `out_i - labels_i` via the cost strategy
and run `BackProp` from the last layer, threading the deltas accumulated in
the layer state from one sample to the next. -/
def runSamples (costName : String) (inMx outMx labelsMx : Mx) (fromLayer : ℤ) :
    List Layer → List ℕ → Except String (List Layer)
  | layers, [] => .ok layers
  | layers, i :: rest =>
    match costDelta costName (rowOf outMx i) (rowOf labelsMx i) with
    | .error e => .error e
    | .ok deltaRow =>
      match BackProp layers (some (rowOf inMx i)) (some deltaRow) fromLayer with
      | .error e => .error e
      | .ok layers2 => runSamples costName inMx outMx labelsMx fromLayer layers2 rest

/-- Embeds the gradient-packing loop at the end of `Network.getGradient`
(applied to the non-input layers): each layer's deltas matrix is scaled in
place by `1/samples`; then, only when `lambda > 0`, the regularization term
`(lambda/samples) * weights-with-zeroed-bias-column` is added to the scaled
deltas and the result is unrolled by column and appended to the flat
gradient.  When `lambda = 0` the loop body appends nothing. -/
def gradPack (lambda : ℚ) (samples : ℕ) : List Layer → List Layer × List ℚ
  | [] => ([], [])
  | layer :: rest =>
    let deltas2 := scaleMx (1 / (samples : ℚ)) layer.deltas
    let (rest2, grads) := gradPack lambda samples rest
    if lambda > 0 then
      let regWeights := scaleMx (lambda / (samples : ℚ)) (setCol0Zero layer.weights)
      ({ layer with deltas := deltas2 } :: rest2,
        mx2Vec (matAdd deltas2 regWeights) false ++ grads)
    else ({ layer with deltas := deltas2 } :: rest2, grads)

/-- Embeds `Network.getGradient`: set the network weights from the flat
vector when one is supplied, forward-propagate the whole input, build the
one-hot labels matrix sized by the output width, run backpropagation once
per sample accumulating into the layer deltas, then scale and pack the
per-layer gradients.  The Go method mutates the network; the embedding
returns the updated layer list next to the flat gradient. -/
def getGradient (layers : List Layer) (costName : String) (lambda : ℚ)
    (weights : Option (List ℚ)) (inMx : Mx) (labelsVec : List ℤ) :
    Except String (List Layer × List ℚ) :=
  match (match weights with
         | some ws =>
           match setNetWeights (layers.drop 1) ws with
           | .error e => .error e
           | .ok rest => .ok (layers.take 1 ++ rest)
         | none => .ok layers : Except String (List Layer)) with
  | .error e => .error e
  | .ok layers1 =>
    match ForwardProp layers1 (some inMx) ((layers1.length : ℤ) - 1) with
    | .error e => .error e
    | .ok outMx =>
      match makeLabelsMx labelsVec (numCols outMx) with
      | .error e => .error e
      | .ok labelsMx =>
        let samples := numRows inMx
        match runSamples costName inMx outMx labelsMx ((layers1.length : ℤ) - 1)
            layers1 (List.range samples) with
        | .error e => .error e
        | .ok layers2 =>
          let (packed, gradient) := gradPack lambda samples (layers2.drop 1)
          .ok (layers2.take 1 ++ packed, gradient)

/-- Embeds `neural.ValidateTrainConfig`: rejects an unsupported cost name, a
negative lambda, an unsupported optimization method and a non-positive
iteration count.  In particular `lambda = 0` is accepted. -/
def ValidateTrainConfig (costName : String) (lambda : ℚ)
    (optimMethod : String) (iterations : ℤ) : Except String Unit :=
  if ¬(costName = "xentropy" ∨ costName = "loglike") then
    .error "Unsupported training cost"
  else if lambda < 0 then .error "Incorrect regularizer supplied"
  else if optimMethod ≠ "bfgs" then .error "Unsupported optimization method"
  else if iterations ≤ 0 then .error "Incorrect number of iterations"
  else .ok ()

/-- Embeds `backprop.CostReg` from `train/backprop/backprop.go`: rejects a
negative lambda or non-positive sample count, and for `lambda > 0`
accumulates, over all non-input layers, the term
`(lambda / (2*samples)) / Σ (weights with bias column dropped)²`
— note the division by the sum of squares, exactly as in the source line
`reg += (lambda / (2 * float64(samples))) / mat64.Sum(sqrMx)`. -/
def CostReg (layers : List Layer) (lambda : ℚ) (samples : ℤ) :
    Except String ℚ :=
  if lambda < 0 ∨ samples ≤ 0 then
    .error "Lambda and samples must be positive numbers"
  else
    .ok (if lambda > 0 then
      (((layers.drop 1).map (fun layer =>
        (lambda / (2 * (samples : ℚ))) /
          sumMx (applyMx (fun x => x ^ 2) (dropCol0 layer.weights)))).sum)
    else 0)

/-- The regularization cost term as the specification states it (spec §4.4
and the doc comment above `CostReg` itself):
`(lambda / (2*samples)) * Σ over non-input layers of Σ (weight², bias column
excluded)`. -/
def costRegSpec (layers : List Layer) (lambda : ℚ) (samples : ℤ) : ℚ :=
  (lambda / (2 * (samples : ℚ))) *
    (((layers.drop 1).map (fun layer =>
      sumMx (applyMx (fun x => x ^ 2) (dropCol0 layer.weights)))).sum)

/-- Embeds `LogLikelihood.CostFunc`: `-(Σ (Y ⊙ log Ŷ)) / samples`.  Unlike
`CrossEntropy.CostFunc` it writes only into a fresh matrix, so the labels and
predictions arguments come back unchanged; the triple mirrors the shape of
`crossEntropyCostFunc` for the common dispatch. -/
def logLikelihoodCostFunc (logFn : ℚ → ℚ) (inMx outMx labelsMx : Mx) :
    ℚ × Mx × Mx :=
  let costMx := mulElemMx labelsMx (applyMx logFn outMx)
  (-(sumMx costMx) / (numRows inMx : ℚ), labelsMx, outMx)

/-- Embeds the `trainCost[...].CostFunc` dispatch of `Network.getCost`: the
map holds `xentropy` and `loglike`; any other name leaves a nil interface
that panics when called. -/
def costFuncDispatch (logFn : ℚ → ℚ) (costName : String)
    (inMx outMx labelsMx : Mx) : Except String (ℚ × Mx × Mx) :=
  if costName = "xentropy" then .ok (crossEntropyCostFunc logFn inMx outMx labelsMx)
  else if costName = "loglike" then .ok (logLikelihoodCostFunc logFn inMx outMx labelsMx)
  else .error "panic: unsupported cost"

/-- Embeds `Network.getCost`: set the network weights from the flat vector
when one is supplied, forward-propagate the whole input, build the one-hot
labels matrix sized by the output width, evaluate the cost strategy, and add
the regularization term `(lambda/(2*samples)) * Σ Σ weight²` (bias column
excluded) computed only when `lambda > 0`. -/
def getCost (logFn : ℚ → ℚ) (layers : List Layer) (costName : String)
    (lambda : ℚ) (weights : Option (List ℚ)) (inMx : Mx) (labelsVec : List ℤ) :
    Except String ℚ :=
  match (match weights with
         | some ws =>
           match setNetWeights (layers.drop 1) ws with
           | .error e => .error e
           | .ok rest => .ok (layers.take 1 ++ rest)
         | none => .ok layers : Except String (List Layer)) with
  | .error e => .error e
  | .ok layers1 =>
    match ForwardProp layers1 (some inMx) ((layers1.length : ℤ) - 1) with
    | .error e => .error e
    | .ok outMx =>
      match makeLabelsMx labelsVec (numCols outMx) with
      | .error e => .error e
      | .ok labelsMx =>
        match costFuncDispatch logFn costName inMx outMx labelsMx with
        | .error e => .error e
        | .ok res =>
          let samples := numRows inMx
          let reg := if lambda > 0 then
              (lambda / (2 * (samples : ℚ))) *
                (((layers1.drop 1).map (fun layer =>
                  sumMx (applyMx (fun x => x ^ 2) (dropCol0 layer.weights)))).sum)
            else 0
          .ok (res.1 + reg)

/-- Two consecutive gradient evaluations with identical arguments, as the
optimizer's repeated callbacks perform them on the shared network: the layer
state returned by the first `getGradient` call is the state the second call
starts from.  The result pairs the two flat gradients. -/
def gradTwice (layers : List Layer) (costName : String) (lambda : ℚ)
    (weights : Option (List ℚ)) (inMx : Mx) (labelsVec : List ℤ) :
    Except String (List ℚ × List ℚ) :=
  match getGradient layers costName lambda weights inMx labelsVec with
  | .error e => .error e
  | .ok (st1, g1) =>
    match getGradient st1 costName lambda weights inMx labelsVec with
    | .error e => .error e
    | .ok (_, g2) => .ok (g1, g2)

/-- Modelled from the spec: the flat weight vector "produced by concatenating
each non-input layer's weight matrix, row-major, in layer order" (spec §3,
Flat weight/gradient vector).  Compared against the packing the code
performs. -/
def packWeightsRowMajorSpec (layers : List Layer) : List ℚ :=
  ((layers.drop 1).map (fun l => mx2VecByRow l.weights)).flatten

/-- Embeds `matrix.ReluMx`, the relu activation: `x` for positive `x`,
otherwise `0`.  Exact on rationals, so concrete networks in this file use
relu layers. -/
def ReluMx (x : ℚ) : ℚ := if x > 0 then x else 0

/-- Embeds `matrix.ReluGradMx`, the relu activation gradient: `1` for
positive inputs, otherwise `0`. -/
def ReluGradMx (x : ℚ) : ℚ := if x > 0 then 1 else 0

/-- An INPUT layer: in Go its weights, deltas and activation functions are
all nil; the placeholder fields here are never read by the embedded code. -/
def inputLayer : Layer :=
  { kind := .INPUT, weights := [], deltas := [], act := id, actGrad := id, meta := "" }

/-- A relu OUTPUT layer with the given weight matrix and, as after
construction, an all-zero deltas matrix of the same shape. -/
def outLayer (w : Mx) : Layer :=
  { kind := .OUTPUT, weights := w, deltas := zeroMx (numRows w) (numCols w),
    act := ReluMx, actGrad := ReluGradMx, meta := "relu" }

/-- A relu HIDDEN layer with the given weight matrix and an all-zero deltas
matrix of the same shape. -/
def hidLayer (w : Mx) : Layer :=
  { kind := .HIDDEN, weights := w, deltas := zeroMx (numRows w) (numCols w),
    act := ReluMx, actGrad := ReluGradMx, meta := "relu" }

/-- The gradient-accumulator update a backpropagation step performs at the
current layer: `deltas += errᵀ × addBias(outMx)` where `outMx` is the
forward output up to the previous layer (lines `dMx.Mul(errMx.T(),
outMxBias)`; `deltasMx.Add(deltasMx, dMx)` of `doBackProp`). -/
def accumulateDeltas (layer : Layer) (errMx outMx : Mx) : Layer :=
  { layer with deltas := matAdd layer.deltas (matMul (transposeMx errMx) (addBias outMx)) }

/-- A 1-input, 1-output test network with weights `[[2, 1]]`. -/
def net1 : List Layer := [inputLayer, outLayer [[2, 1]]]

/-- A 1-input, 1-output test network with weights `[[1, 1]]`. -/
def net2 : List Layer := [inputLayer, outLayer [[1, 1]]]

/-- A 1-input, 1-output test network with weights `[[0, 2]]`. -/
def net3 : List Layer := [inputLayer, outLayer [[0, 2]]]

/-- A 1-input, 1-output test network with weights `[[1, 2]]`. -/
def net4 : List Layer := [inputLayer, outLayer [[1, 2]]]

/-- A 1-input, 1-hidden, 1-output test network. -/
def net5 : List Layer := [inputLayer, hidLayer [[1, 2]], outLayer [[1, 3]]]

/-- A 1-input, 1-output test network whose output layer has two units, so its
weight matrix `[[1, 2], [3, 4]]` distinguishes row-major from column-major
flattening. -/
def net7 : List Layer := [inputLayer, outLayer [[1, 2], [3, 4]]]

/-- A second 1-input, 1-hidden, 1-output test network. -/
def net9 : List Layer := [inputLayer, hidLayer [[2, 1]], outLayer [[1, 2]]]

-- Theorems.
/-- If `ForwardProp` succeeds then the requested layer index was in range
(`0 ≤ toLayer ≤ layerCount - 1`). -/
theorem ForwardProp_ok_bound {layers : List Layer} {inMx : Option Mx}
    {toLayer : ℤ} {out : Mx} (h : ForwardProp layers inMx toLayer = .ok out) :
    0 ≤ toLayer ∧ toLayer ≤ (layers.length : ℤ) - 1 := by
  unfold ForwardProp at h
  cases inMx with
  | none => simp at h
  | some im =>
    by_cases hb : toLayer < 0 ∨ toLayer > (layers.length : ℤ) - 1
    · simp [hb] at h
    · push_neg at hb
      omega

/-- The `doForwardProp` wrapper satisfies exactly the recurrence of the Go
`doForwardProp`: look up layer `f` (panicking when out of range), stop with
`FwdOut` when `f = t`, otherwise feed the layer's output into layer `f+1`. -/
theorem doForwardProp_eq (layers : List Layer) (inMx : Mx) (f t : ℕ) :
    doForwardProp layers inMx f t =
      match layers[f]? with
      | none => .error "panic: index out of range"
      | some layer =>
        if f = t then FwdOut layer (some inMx)
        else
          match FwdOut layer (some inMx) with
          | .error e => .error e
          | .ok out => doForwardProp layers out (f + 1) t := by
  unfold doForwardProp
  rcases Nat.eq_zero_or_pos (layers.length + t + 1 - f) with h0 | hpos
  · have hnone : layers[f]? = none := by
      rw [List.getElem?_eq_none_iff]
      omega
    rw [h0, hnone]
    rfl
  · have hk : layers.length + t + 1 - f = (layers.length + t + 1 - (f + 1)) + 1 := by
      omega
    rw [hk, doForwardPropF]

/-- The `doBackProp` wrapper satisfies exactly the recurrence of the Go
`doBackProp`. -/
theorem doBackProp_eq (layers : List Layer) (inMx errMx : Mx) (f t : ℕ) :
    doBackProp layers inMx errMx f t =
      match layers[f]? with
      | none => .error "panic: index out of range"
      | some layer =>
        match ForwardProp layers (some inMx) ((f : ℤ) - 1) with
        | .error e => .error e
        | .ok outMx =>
          let dMx := matMul (transposeMx errMx) (addBias outMx)
          let layers1 := layers.set f { layer with deltas := matAdd layer.deltas dMx }
          if f = t then .ok layers1
          else
            let layerErr :=
              dropRow0 (matMul (transposeMx layer.weights) (transposeMx errMx))
            match ForwardProp layers1 (some inMx) ((f : ℤ) - 2) with
            | .error e => .error e
            | .ok actInMx =>
              match layers1[f - 1]? with
              | none => .error "panic: index out of range"
              | some weightsErrLayer =>
                let gradMx := applyMx weightsErrLayer.actGrad
                  (matMul (addBias actInMx) (transposeMx weightsErrLayer.weights))
                doBackProp layers1 inMx
                  (mulElemMx (transposeMx layerErr) gradMx) (f - 1) t := by
  show doBackPropF (f + 1) layers inMx errMx f t = _
  rw [doBackPropF]
  cases hget : layers[f]? with
  | none => rfl
  | some layer =>
    cases hfp : ForwardProp layers (some inMx) ((f : ℤ) - 1) with
    | error e => rfl
    | ok outMx =>
      have hf1 : 1 ≤ f := by
        have := (ForwardProp_ok_bound hfp).1
        omega
      by_cases hft : f = t
      · simp [hft]
      · simp only [if_neg hft]
        unfold doBackProp
        conv_rhs => rw [Nat.sub_add_cancel hf1]

/-- C1: the claim says every gradient evaluation returns a flat vector of
length `Σ outputSize*(inputSize+1)` for every `lambda ≥ 0`, in particular
for `lambda = 0`.  The code violates this: `lambda = 0` is a configuration
`ValidateTrainConfig` accepts, the parameter count of the test network is 2,
yet `getGradient` returns a gradient of length 0, because the packing of the
per-layer gradients sits inside the `if c.Lambda > 0.0` branch of
`Network.getGradient`. -/
theorem gradient_empty_when_lambda_zero :
    ValidateTrainConfig "xentropy" 0 "bfgs" 10 = .ok () ∧
    paramCount net1 = 2 ∧
    (getGradient net1 "xentropy" 0 (some [2, 1]) [[1]] [1]).map
      (fun p => p.2.length) = .ok 0 := by
  with_unfolding_all decide

/-- C2: the claim says the gradient accumulators are zero at the start of
every gradient evaluation, making the result independent of previous
evaluations.  The code violates this: `setNetWeights` overwrites only the
weight matrices (via `SetMx2Vec`) and never resets the deltas matrices, so
two consecutive `getGradient` calls with identical weights `[1, 1]`, input
`[[1]]` and labels `[1]` return the different gradients `[1, 2]` and
`[2, 3]` — the residue of the first evaluation leaks into the second. -/
theorem gradient_depends_on_previous_evaluation :
    gradTwice net2 "xentropy" 1 (some [1, 1]) [[1]] [1] = .ok ([1, 2], [2, 3]) ∧
    ([1, 2] : List ℚ) ≠ [2, 3] := by
  with_unfolding_all decide

/-- C3: the claim says the regularization cost term equals
`(lambda/(2m)) * Σ (weight², bias column excluded)`.  `backprop.CostReg`
instead divides: on the network whose only non-input layer has weights
`[[0, 2]]` (squared non-bias sum 4), with `lambda = 1` and one sample, it
returns `(1/2)/4 = 1/8` where the claimed formula (also the function's own
doc comment, and what `Network.getCost` computes) gives `(1/2)*4 = 2`. -/
theorem costReg_divides_by_square_sum :
    CostReg net3 1 1 = .ok (1 / 8) ∧
    costRegSpec net3 1 1 = 2 ∧
    ((1 : ℚ) / 8) ≠ 2 := by
  with_unfolding_all decide

/-- C4: the claim says that with `lambda = 0` the cost evaluation returns
exactly the bare cost-strategy value (which holds: the first two conjuncts
evaluate `getCost` against the raw `CrossEntropy.CostFunc` value) and that
the gradient evaluation returns exactly the `1/samples`-scaled
backpropagated gradient.  The code violates the gradient half: the scaled
deltas of the test network pack to `[2, 2]`, but `getGradient` returns the
empty vector because packing happens only when `lambda > 0`. -/
theorem lambda_zero_gradient_dropped :
    (∀ logFn : ℚ → ℚ, getCost logFn net4 "xentropy" 0 (some [1, 2]) [[1]] [1] =
      .ok ((crossEntropyCostFunc logFn [[1]] [[3]] [[1]]).1 + 0)) ∧
    (getGradient net4 "xentropy" 0 (some [1, 2]) [[1]] [1]).map
      (fun p => p.2) = .ok [] ∧
    (getGradient net4 "xentropy" 0 (some [1, 2]) [[1]] [1]).map
      (fun p => ((p.1.drop 1).map (fun l => mx2Vec l.deltas false)).flatten) =
      .ok [2, 2] ∧
    ([] : List ℚ) ≠ [2, 2] := by
  refine ⟨fun logFn => ?_, ?_, ?_, ?_⟩
  · with_unfolding_all rfl
  · with_unfolding_all decide
  · with_unfolding_all decide
  · with_unfolding_all decide

/-- C7, counterexample part: the claim says the flat vector concatenates the
weight matrices row-major.  The code packs with `Mx2Vec(weights, false)`,
which unrolls column by column: on the network whose non-input layer has
weights `[[1, 2], [3, 4]]` the packed vector is `[1, 3, 2, 4]`, not the
row-major `[1, 2, 3, 4]`. -/
theorem pack_is_column_major_not_row_major :
    packWeights net7 = [1, 3, 2, 4] ∧
    packWeightsRowMajorSpec net7 = [1, 2, 3, 4] ∧
    ([1, 3, 2, 4] : List ℚ) ≠ [1, 2, 3, 4] := by
  with_unfolding_all decide

/-- C10: `CrossEntropy.CostFunc` mutates its matrix arguments in place.
After the call, every element `y` of the labels matrix has been replaced by
`1 - y` and every element `p` of the predictions matrix by `log(1 - p)`; the
embedding returns those final matrices as the second and third components of
its result, for an arbitrary interpretation `logFn` of `math.Log`. -/
theorem crossEntropy_cost_mutates_labels_and_predictions
    (logFn : ℚ → ℚ) (inMx outMx labelsMx : Mx) :
    (crossEntropyCostFunc logFn inMx outMx labelsMx).2.1 =
      applyMx (fun y => 1 - y) labelsMx ∧
    (crossEntropyCostFunc logFn inMx outMx labelsMx).2.2 =
      applyMx (fun p => logFn (1 - p)) outMx := by
  refine ⟨rfl, ?_⟩
  simp [crossEntropyCostFunc, applyMx, List.map_map, Function.comp]

/-- C5: in every backpropagation step at a layer `f` that is not the
terminal layer of the recursion, the step (i) accumulates
`deltas_f += errᵀ × addBias(forward output up to layer f-1)` into layer
`f`'s gradient accumulator, and (ii) propagates to layer `f-1` the error
obtained by dropping the bias row (row 0) of `weights_fᵀ × errᵀ` before
multiplying elementwise with the activation gradient factor. -/
theorem backProp_step_accumulates_and_drops_bias_row
    (layers : List Layer) (inMx errMx : Mx) (f t : ℕ)
    (layer prevLayer : Layer) (outMx actInMx : Mx)
    (hget : layers[f]? = some layer)
    (hfp : ForwardProp layers (some inMx) ((f : ℤ) - 1) = .ok outMx)
    (hft : f ≠ t)
    (hfp2 : ForwardProp
        (layers.set f (accumulateDeltas layer errMx outMx))
        (some inMx) ((f : ℤ) - 2) = .ok actInMx)
    (hprev : (layers.set f (accumulateDeltas layer errMx outMx))[f - 1]? =
        some prevLayer) :
    doBackProp layers inMx errMx f t =
      doBackProp
        (layers.set f (accumulateDeltas layer errMx outMx))
        inMx
        (mulElemMx
          (transposeMx (dropRow0 (matMul (transposeMx layer.weights) (transposeMx errMx))))
          (applyMx prevLayer.actGrad
            (matMul (addBias actInMx) (transposeMx prevLayer.weights))))
        (f - 1) t := by
  simp only [accumulateDeltas] at hfp2 hprev
  rw [doBackProp_eq]
  simp only [hget, hfp, hfp2, hprev, if_neg hft, accumulateDeltas]

/-- Witness for C5 on the concrete network `net5 = input → hidden → output`
with input `[[1]]` and output error `[[1]]`, instantiating the step at
`f = 2`: the forward output of layer 1 is `[[3]]`, so the output layer's
deltas become `[[0,0]] + [[1]]ᵀ × [[1,3]]` and the error propagated to layer
1 drops the bias row before the relu-gradient factor. -/
theorem backProp_step_accumulates_and_drops_bias_row_witness :
    doBackProp net5 [[1]] [[1]] 2 1 =
      doBackProp
        (net5.set 2 (accumulateDeltas (outLayer [[1, 3]]) [[1]] [[3]]))
        [[1]]
        (mulElemMx
          (transposeMx (dropRow0
            (matMul (transposeMx (outLayer [[1, 3]]).weights) (transposeMx [[1]]))))
          (applyMx (hidLayer [[1, 2]]).actGrad
            (matMul (addBias [[1]]) (transposeMx (hidLayer [[1, 2]]).weights))))
        1 1 :=
  backProp_step_accumulates_and_drops_bias_row net5 [[1]] [[1]] 2 1
    (outLayer [[1, 3]]) (hidLayer [[1, 2]]) [[3]] [[1]]
    rfl (by with_unfolding_all decide) (by decide)
    (by with_unfolding_all decide) rfl

/-- C9: the activation-gradient factor used when propagating the error from
layer `f` to layer `f-1` is evaluated on layer `f-1`'s pre-activation
weighted sum `addBias(forward output up to layer f-2) × weights_{f-1}ᵀ`
(first conjunct), not on layer `f-1`'s post-activation output: that output
is the activation function applied to the very same pre-activation matrix
(second conjunct), and it is not what `ActGrad` receives. -/
theorem backProp_actGrad_on_preactivation
    (layers : List Layer) (inMx errMx : Mx) (f t : ℕ)
    (layer prevLayer : Layer) (outMx actInMx : Mx)
    (hget : layers[f]? = some layer)
    (hfp : ForwardProp layers (some inMx) ((f : ℤ) - 1) = .ok outMx)
    (hft : f ≠ t)
    (hfp2 : ForwardProp
        (layers.set f (accumulateDeltas layer errMx outMx))
        (some inMx) ((f : ℤ) - 2) = .ok actInMx)
    (hprev : (layers.set f (accumulateDeltas layer errMx outMx))[f - 1]? =
        some prevLayer)
    (hkind : prevLayer.kind ≠ LayerKind.INPUT)
    (hmeta : prevLayer.meta ≠ "softmax")
    (hdim : numCols actInMx + 1 = numCols prevLayer.weights) :
    doBackProp layers inMx errMx f t =
      doBackProp
        (layers.set f (accumulateDeltas layer errMx outMx))
        inMx
        (mulElemMx
          (transposeMx (dropRow0 (matMul (transposeMx layer.weights) (transposeMx errMx))))
          (applyMx prevLayer.actGrad
            (matMul (addBias actInMx) (transposeMx prevLayer.weights))))
        (f - 1) t ∧
    FwdOut prevLayer (some actInMx) =
      .ok (applyMx prevLayer.act
        (matMul (addBias actInMx) (transposeMx prevLayer.weights))) := by
  constructor
  · simp only [accumulateDeltas] at hfp2 hprev
    rw [doBackProp_eq]
    simp only [hget, hfp, hfp2, hprev, if_neg hft, accumulateDeltas]
  · unfold FwdOut
    simp only [if_neg hkind]
    rw [if_neg (by omega), if_neg hmeta]

/-- Witness for C9 on the concrete network `net9 = input → hidden → output`
with input `[[1]]` and output error `[[2]]`, instantiating the step at
`f = 2`: the activation gradient of the hidden layer is taken on the
pre-activation sum `addBias([[1]]) × [[2,1]]ᵀ`, whose activation — not used
by the step — would be the hidden layer's forward output. -/
theorem backProp_actGrad_on_preactivation_witness :
    (doBackProp net9 [[1]] [[2]] 2 1 =
      doBackProp
        (net9.set 2 (accumulateDeltas (outLayer [[1, 2]]) [[2]] [[3]]))
        [[1]]
        (mulElemMx
          (transposeMx (dropRow0
            (matMul (transposeMx (outLayer [[1, 2]]).weights) (transposeMx [[2]]))))
          (applyMx (hidLayer [[2, 1]]).actGrad
            (matMul (addBias [[1]]) (transposeMx (hidLayer [[2, 1]]).weights))))
        1 1) ∧
    FwdOut (hidLayer [[2, 1]]) (some [[1]]) =
      .ok (applyMx (hidLayer [[2, 1]]).act
        (matMul (addBias [[1]]) (transposeMx (hidLayer [[2, 1]]).weights))) :=
  backProp_actGrad_on_preactivation net9 [[1]] [[2]] 2 1
    (outLayer [[1, 2]]) (hidLayer [[2, 1]]) [[3]] [[1]]
    rfl (by with_unfolding_all decide) (by decide)
    (by with_unfolding_all decide) rfl
    (by decide) (by decide) (by decide)

/-- C8: `SetWeights` succeeds exactly when the layer is not an INPUT layer,
the supplied matrix is not nil and its dimensions match the current weight
matrix (first conjunct); in that case it replaces the weight matrix with the
supplied one and resets the gradient accumulator to an all-zero matrix of
the same shape (second conjunct). -/
theorem setWeights_characterization (l : Layer) (w : Option Mx) :
    ((∃ l2, SetWeights l w = .ok l2) ↔
      (l.kind ≠ LayerKind.INPUT ∧ ∃ wm, w = some wm ∧
        numRows wm = numRows l.weights ∧ numCols wm = numCols l.weights)) ∧
    (∀ wm, w = some wm → l.kind ≠ LayerKind.INPUT →
      numRows wm = numRows l.weights → numCols wm = numCols l.weights →
      SetWeights l w =
        .ok { l with weights := wm, deltas := zeroMx (numRows wm) (numCols wm) }) := by
  refine ⟨⟨?_, ?_⟩, ?_⟩
  · rintro ⟨l2, hl2⟩
    unfold SetWeights at hl2
    by_cases hk : l.kind = LayerKind.INPUT
    · simp [hk] at hl2
    · cases w with
      | none => simp [hk] at hl2
      | some wm =>
        simp only [if_neg hk] at hl2
        by_cases hd : numRows wm = numRows l.weights ∧ numCols wm = numCols l.weights
        · exact ⟨hk, wm, rfl, hd.1, hd.2⟩
        · simp [hd] at hl2
  · rintro ⟨hk, wm, rfl, hr, hc⟩
    refine ⟨{ l with weights := wm, deltas := zeroMx (numRows wm) (numCols wm) }, ?_⟩
    unfold SetWeights
    simp [hk, hr, hc]
  · intro wm hw hk hr hc
    subst hw
    unfold SetWeights
    simp [hk, hr, hc]

/-- Witness for C8: replacing the weights of a relu output layer with a
matrix of matching 1×2 shape succeeds, installs the new matrix and zeroes
the accumulator. -/
theorem setWeights_characterization_witness :
    SetWeights (outLayer [[1, 2]]) (some [[5, 6]]) =
      .ok { outLayer [[1, 2]] with
            weights := [[5, 6]], deltas := zeroMx 1 2 } :=
  (setWeights_characterization (outLayer [[1, 2]]) (some [[5, 6]])).2
    [[5, 6]] rfl (by decide) (by decide) (by decide)

/-- A column view has as many entries as the matrix has rows. -/
theorem length_getCol (m : Mx) (j : ℕ) : (getCol m j).length = m.length := by
  simp [getCol]

/-- The matrix product of an `n`-row matrix with `b` has `n` rows of
`numCols b` entries each. -/
theorem hasDims_matMul (a b : Mx) : HasDims (matMul a b) (numRows a) (numCols b) := by
  refine ⟨by simp [matMul, numRows], ?_⟩
  intro row hrow
  simp only [matMul, List.mem_map] at hrow
  obtain ⟨r, _, rfl⟩ := hrow
  simp [transposeMx]

/-- Elementwise application preserves the shape of a matrix. -/
theorem hasDims_applyMx (f : ℚ → ℚ) {m : Mx} {r c : ℕ} (h : HasDims m r c) :
    HasDims (applyMx f m) r c := by
  refine ⟨by simp [applyMx, h.1], ?_⟩
  intro row hrow
  simp only [applyMx, List.mem_map] at hrow
  obtain ⟨r0, hr0, rfl⟩ := hrow
  simp [h.2 r0 hr0]

/-- A nonempty matrix of known shape has that column count. -/
theorem numCols_of_hasDims {m : Mx} {r c : ℕ} (h : HasDims m r c) (hr : 0 < r) :
    numCols m = c := by
  cases m with
  | nil =>
    exfalso
    have := h.1
    simp at this
    omega
  | cons hd tl => exact h.2 hd (List.mem_cons_self hd tl)

/-- The transpose of a matrix with at least one column has as many columns
as the matrix has rows. -/
theorem numCols_transposeMx (m : Mx) (h : 0 < numCols m) :
    numCols (transposeMx m) = m.length := by
  obtain ⟨k, hk⟩ : ∃ k, numCols m = k + 1 := ⟨numCols m - 1, by omega⟩
  rw [transposeMx, hk, List.range_succ_eq_map, List.map_cons]
  simp [numCols, getCol]

/-- C6: on a non-INPUT layer with weight matrix of shape `o × (i+1)` and an
input of shape `n × i`, `FwdOut` succeeds and returns exactly the activation
function applied elementwise to `addBias(X) × Wᵀ` — row-normalized when the
layer is flagged softmax (first conjunct); that matrix has shape `n × o`
(second conjunct); and the softmax normalization is precisely the division
of each row by its row sum (third conjunct). -/
theorem fwdOut_matches_activation_formula
    (l : Layer) (X : Mx) (o i n : ℕ)
    (hk : l.kind ≠ LayerKind.INPUT)
    (hW : HasDims l.weights o (i + 1)) (ho : 0 < o)
    (hX : HasDims X n i) (hn : 0 < n) :
    FwdOut l (some X) =
      .ok (if l.meta = "softmax"
        then softmaxNorm (applyMx l.act (matMul (addBias X) (transposeMx l.weights)))
        else applyMx l.act (matMul (addBias X) (transposeMx l.weights))) ∧
    HasDims (applyMx l.act (matMul (addBias X) (transposeMx l.weights))) n o ∧
    softmaxNorm (applyMx l.act (matMul (addBias X) (transposeMx l.weights))) =
      (applyMx l.act (matMul (addBias X) (transposeMx l.weights))).map
        (fun row => row.map (fun x => x / row.sum)) := by
  have hXc : numCols X = i := numCols_of_hasDims hX hn
  have hWc : numCols l.weights = i + 1 := numCols_of_hasDims hW ho
  refine ⟨?_, ?_, ?_⟩
  · unfold FwdOut
    simp only [if_neg hk]
    rw [if_neg (by omega)]
    split <;> rfl
  · have hmm := hasDims_matMul (addBias X) (transposeMx l.weights)
    have h1 : numRows (addBias X) = n := by simp [addBias, numRows, hX.1]
    have h2 : numCols (transposeMx l.weights) = o := by
      rw [numCols_transposeMx l.weights (by omega), hW.1]
    rw [h1, h2] at hmm
    exact hasDims_applyMx l.act hmm
  · simp [softmaxNorm, div_eq_mul_inv, one_div, mul_comm]

/-- Witness for C6: a relu hidden layer with weights `[[2,3,4],[5,6,7]]`
(shape 2×3, so o = 2, i = 2) applied to the 3×2 input
`[[1,1],[2,2],[3,3]]`. -/
theorem fwdOut_matches_activation_formula_witness :
    HasDims (hidLayer [[2, 3, 4], [5, 6, 7]]).weights 2 3 ∧
    HasDims [[1, 1], [2, 2], [3, 3]] 3 2 ∧
    (FwdOut (hidLayer [[2, 3, 4], [5, 6, 7]]) (some [[1, 1], [2, 2], [3, 3]]) =
      .ok (if (hidLayer [[2, 3, 4], [5, 6, 7]]).meta = "softmax"
        then softmaxNorm (applyMx (hidLayer [[2, 3, 4], [5, 6, 7]]).act
          (matMul (addBias [[1, 1], [2, 2], [3, 3]])
            (transposeMx (hidLayer [[2, 3, 4], [5, 6, 7]]).weights)))
        else applyMx (hidLayer [[2, 3, 4], [5, 6, 7]]).act
          (matMul (addBias [[1, 1], [2, 2], [3, 3]])
            (transposeMx (hidLayer [[2, 3, 4], [5, 6, 7]]).weights))) ∧
    HasDims (applyMx (hidLayer [[2, 3, 4], [5, 6, 7]]).act
      (matMul (addBias [[1, 1], [2, 2], [3, 3]])
        (transposeMx (hidLayer [[2, 3, 4], [5, 6, 7]]).weights))) 3 2 ∧
    softmaxNorm (applyMx (hidLayer [[2, 3, 4], [5, 6, 7]]).act
      (matMul (addBias [[1, 1], [2, 2], [3, 3]])
        (transposeMx (hidLayer [[2, 3, 4], [5, 6, 7]]).weights))) =
      (applyMx (hidLayer [[2, 3, 4], [5, 6, 7]]).act
        (matMul (addBias [[1, 1], [2, 2], [3, 3]])
          (transposeMx (hidLayer [[2, 3, 4], [5, 6, 7]]).weights))).map
        (fun row => row.map (fun x => x / row.sum))) :=
  ⟨by decide, by decide,
    fwdOut_matches_activation_formula (hidLayer [[2, 3, 4], [5, 6, 7]])
      [[1, 1], [2, 2], [3, 3]] 2 2 3
      (by decide) (by decide) (by decide) (by decide) (by decide)⟩

/-- Unrolling a matrix by column yields one entry per matrix element. -/
theorem length_mx2VecByCol (w : Mx) :
    (mx2VecByCol w).length = numCols w * numRows w := by
  rw [mx2VecByCol, List.length_flatten, transposeMx, List.map_map]
  have hc : (List.length ∘ fun j => getCol w j) = fun _ : ℕ => numRows w := by
    funext j
    simp [getCol, numRows]
  rw [hc, List.map_const', List.sum_replicate, smul_eq_mul, List.length_range]

/-- Indexing the concatenation of equally long blocks: entry `j*r + i` of
the flattening is entry `i` of block `j`. -/
theorem flatten_getD_uniform (ls : List (List ℚ)) (r : ℕ)
    (h : ∀ l ∈ ls, l.length = r) :
    ∀ j i, j < ls.length → i < r →
      ls.flatten.getD (j * r + i) 0 = (ls.getD j []).getD i 0 := by
  induction ls with
  | nil =>
    intro j i hj _
    simp at hj
  | cons hd tl ih =>
    intro j i hj hi
    have hhd : hd.length = r := h hd (by simp)
    cases j with
    | zero =>
      simp only [List.flatten_cons, Nat.zero_mul, Nat.zero_add, List.getD_cons_zero]
      exact List.getD_append hd tl.flatten 0 i (by omega)
    | succ j =>
      have hidx : (j + 1) * r + i = hd.length + (j * r + i) := by
        rw [hhd]
        ring
      rw [List.flatten_cons, hidx, List.getD_append_right hd tl.flatten 0 _ (by omega),
        Nat.add_sub_cancel_left, List.getD_cons_succ]
      exact ih (fun l hl => h l (by simp [hl])) j i (by simpa using hj) hi

/-- Column `j` of the transpose, for an in-range `j`. -/
theorem transposeMx_getD (w : Mx) (j : ℕ) (hj : j < numCols w) :
    (transposeMx w).getD j [] = getCol w j := by
  rw [transposeMx, List.getD_eq_getElem _ _ (by simpa using hj)]
  simp

/-- Unpacking the column-major unrolling of a rectangular matrix into its
own shape recovers the matrix: the core of the pack/unpack round trip. -/
theorem fillByCol_mx2VecByCol {w : Mx} (hwf : Wf w) :
    fillByCol (numRows w) (numCols w) (mx2VecByCol w) = w := by
  apply List.ext_getElem
  · simp [fillByCol, numRows]
  · intro i h1 h2
    have hi : i < numRows w := by simpa [fillByCol] using h1
    have hrowlen : w[i].length = numCols w := hwf w[i] (w.getElem_mem h2)
    simp only [fillByCol, List.getElem_map, List.getElem_range]
    apply List.ext_getElem
    · simp [hrowlen]
    · intro j hj1 hj2
      have hj : j < numCols w := by simpa using hj1
      simp only [List.getElem_map, List.getElem_range]
      rw [mx2VecByCol]
      rw [flatten_getD_uniform (transposeMx w) (numRows w)
        (by
          intro l hl
          simp only [transposeMx, List.mem_map] at hl
          obtain ⟨x, _, rfl⟩ := hl
          simp [getCol, numRows])
        j i (by simp [transposeMx, hj]) hi]
      rw [transposeMx_getD w j hj, getCol,
        List.getD_eq_getElem _ _ (by simpa [numRows] using hi), List.getElem_map,
        List.getD_eq_getElem _ _ (by omega)]

/-- Unpacking a rectangular matrix from its own column-major unrolling
succeeds and returns the matrix unchanged (`SetMx2Vec` after `Mx2Vec`,
both with `byRow = false`). -/
theorem setMx2Vec_roundtrip {w : Mx} (hwf : Wf w) :
    setMx2Vec w (mx2VecByCol w) false = .ok w := by
  rw [setMx2Vec, if_neg (by rw [length_mx2VecByCol, Nat.mul_comm]; omega)]
  simp [fillByCol_mx2VecByCol hwf]

/-- Unpacking the concatenation of the column-major unrollings of a list of
layers' rectangular weight matrices restores every layer unchanged. -/
theorem setNetWeights_pack (ls : List Layer) (hwf : ∀ l ∈ ls, Wf l.weights) :
    setNetWeights ls ((ls.map (fun l => mx2Vec l.weights false)).flatten) =
      .ok ls := by
  induction ls with
  | nil => rfl
  | cons l rest ih =>
    have hl : Wf l.weights := hwf l (by simp)
    have hlen : (mx2Vec l.weights false).length =
        numRows l.weights * numCols l.weights := by
      simp [mx2Vec, length_mx2VecByCol, Nat.mul_comm]
    rw [List.map_cons, List.flatten_cons, setNetWeights]
    have hge : ¬ ((mx2Vec l.weights false ++
        ((rest.map (fun l => mx2Vec l.weights false)).flatten)).length <
        numRows l.weights * numCols l.weights) := by
      rw [List.length_append, hlen]
      omega
    rw [if_neg hge]
    have htake : (mx2Vec l.weights false ++
        ((rest.map (fun l => mx2Vec l.weights false)).flatten)).take
          (numRows l.weights * numCols l.weights) = mx2Vec l.weights false := by
      rw [← hlen]
      exact List.take_left _ _
    have hdrop : (mx2Vec l.weights false ++
        ((rest.map (fun l => mx2Vec l.weights false)).flatten)).drop
          (numRows l.weights * numCols l.weights) =
        (rest.map (fun l => mx2Vec l.weights false)).flatten := by
      rw [← hlen]
      exact List.drop_left _ _
    rw [htake, hdrop]
    have hset : setMx2Vec l.weights (mx2Vec l.weights false) false =
        .ok l.weights := by
      simpa [mx2Vec] using setMx2Vec_roundtrip hl
    rw [hset, ih (fun l2 hl2 => hwf l2 (by simp [hl2]))]

/-- C7, amended round-trip part: packing all non-input layer weight matrices
into the flat vector (column-major, `Mx2Vec(.., false)`, in layer order) and
unpacking that vector back into the layers (`setNetWeights`, which fills
with `SetMx2Vec(.., false)`) succeeds and reproduces every non-input layer
— in particular identical weight matrices. -/
theorem pack_unpack_roundtrip (layers : List Layer)
    (hwf : ∀ l ∈ layers.drop 1, Wf l.weights) :
    setNetWeights (layers.drop 1) (packWeights layers) = .ok (layers.drop 1) :=
  setNetWeights_pack (layers.drop 1) hwf

/-- Witness for the C7 round trip on the concrete network `net7`, whose
non-input layer holds the 2×2 weight matrix `[[1,2],[3,4]]`. -/
theorem pack_unpack_roundtrip_witness :
    setNetWeights (net7.drop 1) (packWeights net7) = .ok (net7.drop 1) :=
  pack_unpack_roundtrip net7 (by decide)

end GoNeural
